import Mathlib

/-!
# Verification of the `myparserlib` tokenizer and parser combinators

A shallow embedding of `myparserlib/lexer.py` and `myparserlib/parser.py`.
Strings are modelled as `List Char` and the compiled regular expression of a
lexer spec is modelled as an abstract matcher function
`List Char → Nat → Option (List Char)` returning, like `regexp.match(string, i)`
followed by `m.group()`, the text matched at position `i` (or `none`).
Python exceptions become explicit result constructors.
-/

namespace MyLexer

/-- Embeds `lexer.Token`: type label, matched text, and the start/end
line-column pairs.  The Python attribute `end` is called `stop` here because
`end` is a Lean keyword. -/
structure Tok where
  type : String
  value : List Char
  start : Nat × Nat
  stop : Nat × Nat
deriving DecidableEq, Repr

/-- A compiled lexer spec: the token type label together with the matcher
standing for the compiled regular expression. -/
structure Spec where
  tokType : String
  matcher : List Char → Nat → Option (List Char)

/-- Embeds `value.rfind('\n')` for a `value` that contains a newline — the
only situation in which the source evaluates it (`nls != 0` branch). -/
def rfindNl (v : List Char) : Nat :=
  v.length - 1 - v.reverse.findIdx (fun c => c == '\n')

/-- Builds the token returned by `match_specs` on a successful match,
following lines 66-76 of `lexer.py`: count newlines in the matched text,
advance the line counter by that count, and either advance the column by the
text length (no newline) or reset it to the offset after the last newline. -/
def mkTok (tokType : String) (value : List Char) (line pos : Nat) : Tok :=
  let nls := value.count '\n'
  let n_line := line + nls
  let n_pos := if nls == 0 then pos + value.length else value.length - rfindNl value - 1
  ⟨tokType, value, (line, pos + 1), (n_line, n_pos)⟩

/-- Outcome of `match_specs`.  When no spec matches, the source executes
`errline = str.splitlines()[line - 1]` — a call of the *unbound* method
`str.splitlines` with no argument, which raises `TypeError` before any
`LexerError` can be constructed; `typeError` embeds that crash. -/
inductive MatchRes where
  | tok (t : Tok)
  | typeError
deriving DecidableEq, Repr

/-- Embeds `match_specs(specs, string, i, position)`: try the specs in
declaration order and return a token built from the first match. -/
def match_specs : List Spec → List Char → Nat → Nat × Nat → MatchRes
  | [], _, _, _ => .typeError
  | spec :: rest, string, i, (line, pos) =>
    match spec.matcher string i with
    | some value => .tok (mkTok spec.tokType value line pos)
    | none => match_specs rest string i (line, pos)

/-- Outcome of a tokenizer run.  The generator of the source yields tokens
one by one; here a run is materialised as the list of tokens produced before
the run ends (`done`), crashes in the no-match branch (`typeError`), or
exhausts the fuel bounding the number of loop iterations (`outOfFuel`). -/
inductive LexRes where
  | done (toks : List Tok)
  | typeError (toks : List Tok)
  | outOfFuel
deriving DecidableEq, Repr

/-- Embeds the loop of the inner function `f` of `make_tokenizer`: while the
cursor `i` is inside the string, match a token, emit it, move the
line/column to the end of the token and advance `i` by the matched length. -/
def tokenizeFuel (specs : List Spec) (string : List Char) :
    Nat → Nat → Nat × Nat → List Tok → LexRes
  | 0, _, _, _ => .outOfFuel
  | fuel + 1, i, (line, pos), acc =>
    if i < string.length then
      match match_specs specs string i (line, pos) with
      | .typeError => .typeError acc
      | .tok t => tokenizeFuel specs string fuel (i + t.value.length) t.stop (acc ++ [t])
    else
      .done acc

/-- A full tokenizer run from the initial state `line, pos = 1, 0`, `i = 0`. -/
def tokenize (specs : List Spec) (string : List Char) (fuel : Nat) : LexRes :=
  tokenizeFuel specs string fuel 0 (1, 0) []

/-- The tokenizer terminates on `string` when some finite fuel suffices. -/
def Terminates (specs : List Spec) (string : List Char) : Prop :=
  ∃ fuel, tokenize specs string fuel ≠ .outOfFuel

/-- Matcher modelling the compiled pattern `\d+`: the maximal nonempty run
of digits starting at `i`, or no match. -/
def digitsMatcher : List Char → Nat → Option (List Char) :=
  fun s i =>
    let v := (s.drop i).takeWhile (fun c => c.isDigit)
    if v.isEmpty then none else some v

/-- Matcher modelling the compiled pattern `a*`: the (possibly empty)
maximal run of the letter `a` starting at `i` — it matches the empty string
whenever the character at `i` is not an `a`. -/
def aStarMatcher : List Char → Nat → Option (List Char) :=
  fun s i => some ((s.drop i).takeWhile (fun c => c == 'a'))

/-- Matcher modelling the compiled pattern `.` with DOTALL: exactly one
arbitrary character, failing only at end of input. -/
def anyCharMatcher : List Char → Nat → Option (List Char) :=
  fun s i => if i < s.length then some ((s.drop i).take 1) else none

end MyLexer

namespace MyParser

/-- Embeds `parser.State`: cursor position `pos` and the furthest position
`max` reached so far. -/
structure State where
  pos : Nat
  max : Nat
deriving DecidableEq, Repr

/-- The universe of runtime parse values: a plain token (`atom`), a
`_Tuple` (`tup`), a Python list as returned by `many` (`listV`), an
`_Ignored` wrapper (`ignored`), and the Python unit `()` (`unit`). -/
inductive Val (α : Type) where
  | atom (a : α)
  | tup (vs : List (Val α))
  | listV (vs : List (Val α))
  | ignored (v : Val α)
  | unit
deriving Repr

/-- Outcome of running a parser function: a success `(value, state)`, a
`NoParseError` carrying its message and state (`fail`), or divergence
(`nonterm`), which also stands for running out of fuel. -/
inductive PRes (α : Type) where
  | ok (v : Val α) (s : State)
  | fail (msg : String) (s : State)
  | nonterm

/-- A parser function, `Sequence(a), State -> (b, State)` in the source. -/
abbrev Prs (α : Type) := List α → State → PRes α

/-- Embeds `isinstance(v, _Ignored)`. -/
def isIgnored : Val α → Bool
  | .ignored _ => true
  | _ => false

/-- Embeds `isinstance(v, _Tuple)`. -/
def isTup : Val α → Bool
  | .tup _ => true
  | _ => false

/-- Embeds `magic(v1, v2)` of `Parser.__add__`: drop `_Ignored` values; a
lone survivor is returned as is; with two survivors, extend `v1` when it is
a `_Tuple`, otherwise pair them in a fresh `_Tuple`; with none, return
`_Ignored(())`. -/
def magic (v1 v2 : Val α) : Val α :=
  if isIgnored v1 then
    if isIgnored v2 then .ignored .unit else v2
  else if isIgnored v2 then v1
  else
    match v1 with
    | .tup vs => .tup (vs ++ [v2])
    | _ => .tup [v1, v2]

/-- Embeds `Parser.__add__` (`_add`): run the first parser, then the second
from the resulting state, and merge the values with `magic`. -/
def addP (p q : Prs α) : Prs α := fun tokens s =>
  match p tokens s with
  | .ok v1 s2 =>
    match q tokens s2 with
    | .ok v2 s3 => .ok (magic v1 v2) s3
    | .fail msg es => .fail msg es
    | .nonterm => .nonterm
  | .fail msg es => .fail msg es
  | .nonterm => .nonterm

/-- Embeds `Parser.__or__` (`_or`): run the first parser; on a
`NoParseError` run the second from `State(s.pos, e.state.max)`. -/
def orP (p q : Prs α) : Prs α := fun tokens s =>
  match p tokens s with
  | .ok v s2 => .ok v s2
  | .fail _ es => q tokens ⟨s.pos, es.max⟩
  | .nonterm => .nonterm

/-- Embeds `Parser.__rshift__` (`_shift`): apply `f` to the parsed value. -/
def mapP (p : Prs α) (f : Val α → Val α) : Prs α := fun tokens s =>
  match p tokens s with
  | .ok v s2 => .ok (f v) s2
  | .fail msg es => .fail msg es
  | .nonterm => .nonterm

/-- Embeds `Parser.bind` (`_bind`). -/
def bindP (p : Prs α) (f : Val α → Prs α) : Prs α := fun tokens s =>
  match p tokens s with
  | .ok v s2 => f v tokens s2
  | .fail msg es => .fail msg es
  | .nonterm => .nonterm

/-- Embeds `pure(x)` (`_pure`). -/
def pureP (x : Val α) : Prs α := fun _ s => .ok x s

/-- Embeds `some(pred)` (`_some`): fail with the message `no tokens left in the stream` at end of input; otherwise test the token under the cursor, and on
success advance the cursor and raise `max` to `max(pos, s.max)`. -/
def someP (pred : α → Bool) : Prs α := fun tokens s =>
  if h : s.pos < tokens.length then
    let t := tokens.get ⟨s.pos, h⟩
    if pred t then
      .ok (.atom t) ⟨s.pos + 1, Nat.max (s.pos + 1) s.max⟩
    else
      .fail "got unexpected token" s
  else
    .fail "no tokens left in the stream" s

/-- Embeds `skip(p)`, i.e. `p >> _Ignored`. -/
def skipP (p : Prs α) : Prs α := mapP p .ignored

/-- Embeds the `while True` loop of `_many` inside `many`: run `p` repeatedly
from the evolving state, collecting values in `res`; when `p` raises, return
the collected list with state `State(s.pos, e.state.max)`, where `s` is the
state after the last success.  The fuel only bounds the number of loop
iterations; running out of it stands for divergence of the loop. -/
def manyFuel (p : Prs α) (tokens : List α) : Nat → State → List (Val α) → PRes α
  | 0, _, _ => .nonterm
  | fuel + 1, s, res =>
    match p tokens s with
    | .ok v s2 => manyFuel p tokens fuel s2 (res ++ [v])
    | .fail _ es => .ok (.listV res) ⟨s.pos, es.max⟩
    | .nonterm => .nonterm

/-- Embeds `many(p)` with the given iteration budget. -/
def manyP (p : Prs α) (fuel : Nat) : Prs α := fun tokens s =>
  manyFuel p tokens fuel s []

/-- Outcome of the `parse` entry point: the parsed value, or the rethrown
`NoParseError` whose message names the token at index `max`. -/
inductive ParseOut (α : Type) where
  | ok (v : Val α)
  | err (msg : String) (s : State)
  | nonterm

/-- Embeds `Parser.parse(tokens)`: run from `State()`, return the tree on
success, and on `NoParseError` rethrow with the message extended by the
token at index `e.state.max` — or the sentinel `<EOF>` when `max` is not smaller than
the token count.  `shw` stands for the Python rendering `str` of a token. -/
def parseD (shw : α → String) (p : Prs α) (tokens : List α) : ParseOut α :=
  match p tokens ⟨0, 0⟩ with
  | .ok v _ => .ok v
  | .fail msg es =>
    .err (msg ++ ": " ++
      (if h : es.max < tokens.length then shw (tokens.get ⟨es.max, h⟩) else "<EOF>")) es
  | .nonterm => .nonterm

/-- The `max` component of an outcome, with default `d` for divergence. -/
def resMax (r : PRes α) (d : Nat) : Nat :=
  match r with
  | .ok _ s => s.max
  | .fail _ s => s.max
  | .nonterm => d

/-- A parser whose outcomes never regress `max` below that of the input state. -/
def Mono (p : Prs α) : Prop :=
  ∀ tokens s, s.max ≤ resMax (p tokens s) s.max

/-- A parser that cannot succeed on zero consumed tokens: every success
strictly advances the cursor, and never beyond the end of the sequence. -/
def Progressive (p : Prs α) (tokens : List α) : Prop :=
  ∀ s v s2, p tokens s = .ok v s2 → s.pos < s2.pos ∧ s2.pos ≤ tokens.length

/-- A parser function that always returns or raises, never diverges. -/
def Total (p : Prs α) (tokens : List α) : Prop :=
  ∀ s, p tokens s ≠ .nonterm

/-- The successive values and end state of a chain of successful runs of
`p`, each started from the state the previous one returned. -/
inductive Chain (p : Prs α) (tokens : List α) : State → List (Val α) → State → Prop
  | nil (s : State) : Chain p tokens s [] s
  | cons {s : State} {v : Val α} {s2 : State} {vs : List (Val α)} {s3 : State} :
      p tokens s = .ok v s2 → Chain p tokens s2 vs s3 →
      Chain p tokens s (v :: vs) s3

end MyParser

namespace MyLexer

/-- The scanner `match_specs` only matches the empty list of specs against a position
when every spec declined, so a token always originates from some spec. -/
theorem match_specs_tok_src {specs : List Spec} {string : List Char}
    {i line pos : Nat} {t : Tok}
    (h : match_specs specs string i (line, pos) = .tok t) :
    ∃ sp ∈ specs, sp.matcher string i = some t.value := by
  induction specs with
  | nil => simp [match_specs] at h
  | cons sp rest ih =>
    rw [match_specs] at h
    cases hm : sp.matcher string i with
    | some v =>
      rw [hm] at h
      refine ⟨sp, by simp, ?_⟩
      cases h
      simpa [mkTok] using hm
    | none =>
      rw [hm] at h
      obtain ⟨sp2, hmem, hv⟩ := ih h
      exact ⟨sp2, by simp [hmem], hv⟩

/-- A successful `digitsMatcher` match is a nonempty digit run. -/
theorem digitsMatcher_nonempty (s : List Char) (i : Nat) (v : List Char)
    (h : digitsMatcher s i = some v) : v ≠ [] := by
  unfold digitsMatcher at h
  by_cases he : ((s.drop i).takeWhile (fun c => c.isDigit)).isEmpty
  · simp [he] at h
  · simp only [he, if_false] at h
    cases h
    simpa [List.isEmpty_iff] using he

/-- The matcher `anyCharMatcher` returns the one-character slice at its position. -/
theorem anyCharMatcher_honest (s : List Char) (i : Nat) (v : List Char)
    (h : anyCharMatcher s i = some v) : v = (s.drop i).take v.length := by
  unfold anyCharMatcher at h
  by_cases hi : i < s.length
  · simp only [hi, if_true] at h
    cases h
    have hlen : ((s.drop i).take 1).length = 1 := by
      simp [List.length_take, List.length_drop]
      omega
    rw [hlen]
  · simp [hi] at h

/-- The tokenizer never runs out of fuel once the fuel exceeds the number
of characters left, provided every match consumes at least one character. -/
theorem tokenizeFuel_no_fuel_exhaustion {specs : List Spec} {string : List Char}
    (hne : ∀ sp ∈ specs, ∀ i v, sp.matcher string i = some v → v ≠ []) :
    ∀ fuel i pr acc, string.length - i < fuel →
      tokenizeFuel specs string fuel i pr acc ≠ .outOfFuel := by
  intro fuel
  induction fuel with
  | zero => intro i pr acc hlt; omega
  | succ fuel ih =>
    intro i pr acc hlt
    obtain ⟨line, pos⟩ := pr
    rw [tokenizeFuel]
    by_cases hi : i < string.length
    · simp only [hi, if_true]
      cases hms : match_specs specs string i (line, pos) with
      | typeError => simp
      | tok t =>
        obtain ⟨sp, hmem, hv⟩ := match_specs_tok_src hms
        have hvne : t.value ≠ [] := hne sp hmem i t.value hv
        have hpos : 0 < t.value.length := List.length_pos.mpr hvne
        exact ih (i + t.value.length) t.stop (acc ++ [t]) (by omega)
    · simp [hi]

/-- Invariant of the tokenizer loop: with matchers that return the exact
slice of the input at the match position, the emitted values concatenate to
the scanned portion of the input, so a completed run tiles the input. -/
theorem tokenizeFuel_tiles {specs : List Spec} {string : List Char}
    (hh : ∀ sp ∈ specs, ∀ i v, sp.matcher string i = some v →
      v = (string.drop i).take v.length) :
    ∀ fuel i pr acc toks,
      (acc.map Tok.value).flatten = string.take i → i ≤ string.length →
      tokenizeFuel specs string fuel i pr acc = .done toks →
      (toks.map Tok.value).flatten = string := by
  intro fuel
  induction fuel with
  | zero => intro i pr acc toks _ _ hdone; simp [tokenizeFuel] at hdone
  | succ fuel ih =>
    intro i pr acc toks hacc hile hdone
    obtain ⟨line, pos⟩ := pr
    rw [tokenizeFuel] at hdone
    by_cases hi : i < string.length
    · simp only [hi, if_true] at hdone
      cases hms : match_specs specs string i (line, pos) with
      | typeError => rw [hms] at hdone; simp at hdone
      | tok t =>
        rw [hms] at hdone
        obtain ⟨sp, hmem, hv⟩ := match_specs_tok_src hms
        have hslice := hh sp hmem i t.value hv
        have hlen : t.value.length ≤ string.length - i := by
          have := congrArg List.length hslice
          simp [List.length_take, List.length_drop] at this
          omega
        refine ih (i + t.value.length) t.stop (acc ++ [t]) toks ?_ (by omega) hdone
        have hta : string.take (i + t.value.length) =
            string.take i ++ (string.drop i).take t.value.length :=
          List.take_add string i t.value.length
        simp [hacc, hta, hslice.symm]
    · simp only [hi, if_false] at hdone
      cases hdone
      have hieq : i = string.length := by omega
      rw [hacc, hieq]
      simp

/-- On input `"b"`, the spec list whose single pattern is `a*` matches the
empty string at position 0, the cursor never advances, and no amount of fuel
completes the scan. -/
theorem tokenizeFuel_aStar_stuck :
    ∀ fuel acc, tokenizeFuel [⟨"A", aStarMatcher⟩] ['b'] fuel 0 (1, 0) acc =
      .outOfFuel := by
  intro fuel
  induction fuel with
  | zero => intro acc; rfl
  | succ fuel ih =>
    intro acc
    rw [tokenizeFuel]
    simp only [List.length_singleton, Nat.zero_lt_one, if_true]
    have hms : match_specs [⟨"A", aStarMatcher⟩] ['b'] 0 (1, 0) =
        .tok (mkTok "A" [] 1 0) := rfl
    rw [hms]
    exact ih _

/-- C2 [code_bug]: with the spec list `[("NUM", "\d+")]` and input `"a"`, no
spec matches at position 0, and the claim calls for a lex error carrying
`(1, 1)` and the source line `"a"`.  The code instead executes
`errline = str.splitlines()[line - 1]` — `str.splitlines` is the unbound
method of the `str` type, called with no argument — which raises `TypeError`
before any `LexerError` is built, so no lex error with the line text is ever
produced. -/
theorem c2_lex_error_typeerror :
    tokenize [⟨"NUM", digitsMatcher⟩] ['a'] 2 = .typeError [] := rfl

/-- C3 [counterexample]: the tokenizer built from the single spec
`("A", "a*")`, whose pattern matches the empty string, does not terminate on
the input `"b"`: the match at position 0 is empty, the cursor never
advances, and the token sequence is infinite. -/
theorem c3_tokenize_diverges_cex :
    ¬ Terminates [⟨"A", aStarMatcher⟩] ['b'] := by
  rintro ⟨fuel, hf⟩
  exact hf (tokenizeFuel_aStar_stuck fuel [])

/-- C3 [amended]: for every spec list and input text such that no spec ever
matches the empty string, `tokenize` is finite: fuel `length + 1` already
completes the scan, either exhausting the input or ending in the failure
branch. -/
theorem c3_tokenize_terminates_amended (specs : List Spec) (string : List Char)
    (hne : ∀ sp ∈ specs, ∀ i v, sp.matcher string i = some v → v ≠ []) :
    tokenize specs string (string.length + 1) ≠ .outOfFuel :=
  tokenizeFuel_no_fuel_exhaustion hne (string.length + 1) 0 (1, 0) [] (by omega)

/-- C3 [witness]: the digit tokenizer terminates on the input `"1"`. -/
theorem c3_tokenize_terminates_witness :
    tokenize [⟨"NUM", digitsMatcher⟩] ['1'] 2 ≠ .outOfFuel :=
  c3_tokenize_terminates_amended [⟨"NUM", digitsMatcher⟩] ['1']
    (fun sp hsp i v hv => by
      have : sp = ⟨"NUM", digitsMatcher⟩ := by simpa using hsp
      subst this
      exact digitsMatcher_nonempty ['1'] i v hv)

/-- C4: the specs are tried in declaration order and the first match wins:
whenever every spec before `spec` declines position `i` and `spec` matches
`v` there, the scanner returns a token labelled with the type label of `spec` and
carrying `v`, whatever the specs after it (in particular ones matching a
longer text) would do. -/
theorem c4_priority_match (pre post : List Spec) (spec : Spec)
    (string : List Char) (i line pos : Nat) (v : List Char)
    (hpre : ∀ sp ∈ pre, sp.matcher string i = none)
    (hm : spec.matcher string i = some v) :
    match_specs (pre ++ spec :: post) string i (line, pos) =
      .tok (mkTok spec.tokType v line pos) := by
  induction pre with
  | nil => simp [match_specs, hm]
  | cons sp rest ih =>
    have hsp : sp.matcher string i = none := hpre sp (by simp)
    rw [List.cons_append, match_specs, hsp]
    exact ih (fun sp2 h2 => hpre sp2 (by simp [h2]))

/-- C4 [witness]: with specs `[NUM = \d+, ONE = ., WORD = lowercase run]` on
`"ab"`, NUM declines, ONE matches `"a"`, and the token is `ONE "a"` even
though the later WORD spec would match the longer `"ab"`. -/
theorem c4_priority_match_witness :
    match_specs
      [⟨"NUM", digitsMatcher⟩, ⟨"ONE", anyCharMatcher⟩,
       ⟨"WORD", fun s i =>
          let v := (s.drop i).takeWhile (fun c => c.isLower)
          if v.isEmpty then none else some v⟩]
      ['a', 'b'] 0 (1, 0) = .tok (mkTok "ONE" ['a'] 1 0) := by
  have h := c4_priority_match [⟨"NUM", digitsMatcher⟩]
    [⟨"WORD", fun s i =>
        let v := (s.drop i).takeWhile (fun c => c.isLower)
        if v.isEmpty then none else some v⟩]
    ⟨"ONE", anyCharMatcher⟩ ['a', 'b'] 0 1 0 ['a']
    (fun sp hsp => by
      have : sp = ⟨"NUM", digitsMatcher⟩ := by simpa using hsp
      subst this
      rfl)
    rfl
  exact h

/-- C10: whenever a tokenizer whose matchers return the exact slice of the
input at the match position (as `re` guarantees of `m.group()`) completes
without a lex error, the values of the emitted tokens, concatenated in
emission order, reproduce the input character for character. -/
theorem c10_tokens_tile_input (specs : List Spec) (string : List Char)
    (fuel : Nat) (toks : List Tok)
    (hh : ∀ sp ∈ specs, ∀ i v, sp.matcher string i = some v →
      v = (string.drop i).take v.length)
    (hdone : tokenize specs string fuel = .done toks) :
    (toks.map Tok.value).flatten = string :=
  tokenizeFuel_tiles hh fuel 0 (1, 0) [] toks (by simp) (by simp) hdone

/-- C10 [witness]: the one-character tokenizer on `"ab"` emits tokens whose
values concatenate back to `"ab"`. -/
theorem c10_tokens_tile_input_witness :
    (([⟨"ONE", ['a'], (1, 1), (1, 1)⟩, ⟨"ONE", ['b'], (1, 2), (1, 2)⟩] :
        List Tok).map Tok.value).flatten = ['a', 'b'] :=
  c10_tokens_tile_input [⟨"ONE", anyCharMatcher⟩] ['a', 'b'] 3 _
    (fun sp hsp i v hv => by
      have : sp = ⟨"ONE", anyCharMatcher⟩ := by simpa using hsp
      subst this
      exact anyCharMatcher_honest ['a', 'b'] i v hv)
    rfl

end MyLexer

namespace MyParser

/-- The accessor `resMax` ignores its default on any outcome other than divergence. -/
theorem resMax_indep (r : PRes α) (d d' : Nat) (h : r ≠ .nonterm) :
    resMax r d = resMax r d' := by
  cases r with
  | ok v s => rfl
  | fail m s => rfl
  | nonterm => exact absurd rfl h

/-- The behaviour of `some(pred)` when a token is available: test it, and
either consume it or fail in place. -/
theorem someP_eq_pos {pred : α → Bool} {tokens : List α} {s : State}
    (h : s.pos < tokens.length) :
    someP pred tokens s =
      if pred (tokens.get ⟨s.pos, h⟩) then
        .ok (.atom (tokens.get ⟨s.pos, h⟩)) ⟨s.pos + 1, Nat.max (s.pos + 1) s.max⟩
      else .fail "got unexpected token" s := by
  unfold someP
  rw [dif_pos h]

/-- The behaviour of `some(pred)` at end of input. -/
theorem someP_eq_eof {pred : α → Bool} {tokens : List α} {s : State}
    (h : tokens.length ≤ s.pos) :
    someP pred tokens s = .fail "no tokens left in the stream" s := by
  unfold someP
  rw [dif_neg (by omega)]

/-- The parser `some(pred)` never lowers `max`: on success the new `max` is
`max(pos, s.max)` and on failure the state is returned unchanged. -/
theorem mono_someP (pred : α → Bool) : Mono (someP pred) := by
  intro tokens s
  by_cases h : s.pos < tokens.length
  · rw [someP_eq_pos h]
    by_cases hp : pred (tokens.get ⟨s.pos, h⟩)
    · rw [if_pos hp]
      simp only [resMax]
      exact Nat.le_max_right _ _
    · rw [if_neg hp]
      simp [resMax]
  · rw [someP_eq_eof (by omega)]
    simp [resMax]

/-- The parser `pure(x)` returns its state unchanged, hence never lowers `max`. -/
theorem mono_pureP (x : Val α) : Mono (pureP x) := by
  intro tokens s
  simp [pureP, resMax]

/-- Sequential composition of `max`-monotone parsers is `max`-monotone. -/
theorem mono_addP {p q : Prs α} (hp : Mono p) (hq : Mono q) :
    Mono (addP p q) := by
  intro tokens s
  have h1 := hp tokens s
  cases e1 : p tokens s with
  | ok v1 s2 =>
    rw [e1] at h1
    simp only [resMax] at h1
    have h2 := hq tokens s2
    cases e2 : q tokens s2 with
    | ok v2 s3 =>
      rw [e2] at h2
      simp only [resMax] at h2
      simp only [addP, e1, e2, resMax]
      omega
    | fail m es =>
      rw [e2] at h2
      simp only [resMax] at h2
      simp only [addP, e1, e2, resMax]
      omega
    | nonterm => simp [addP, e1, e2, resMax]
  | fail m es =>
    rw [e1] at h1
    simp only [resMax] at h1
    simp only [addP, e1, resMax]
    exact h1
  | nonterm => simp [addP, e1, resMax]

/-- Choice of `max`-monotone parsers is `max`-monotone: the second branch
restarts at `s.pos` but inherits (and never regresses) the first branch
reached `max`. -/
theorem mono_orP {p q : Prs α} (hp : Mono p) (hq : Mono q) :
    Mono (orP p q) := by
  intro tokens s
  have h1 := hp tokens s
  cases e1 : p tokens s with
  | ok v s2 =>
    rw [e1] at h1
    simp only [resMax] at h1
    simp only [orP, e1, resMax]
    exact h1
  | fail m es =>
    rw [e1] at h1
    simp only [resMax] at h1
    have h2 := hq tokens ⟨s.pos, es.max⟩
    cases e2 : q tokens ⟨s.pos, es.max⟩ with
    | ok v2 s3 =>
      rw [e2] at h2
      simp only [resMax] at h2
      simp only [orP, e1, e2, resMax]
      omega
    | fail m2 es2 =>
      rw [e2] at h2
      simp only [resMax] at h2
      simp only [orP, e1, e2, resMax]
      omega
    | nonterm => simp [orP, e1, e2, resMax]
  | nonterm => simp [orP, e1, resMax]

/-- Mapping over a `max`-monotone parser is `max`-monotone. -/
theorem mono_mapP {p : Prs α} (hp : Mono p) (f : Val α → Val α) :
    Mono (mapP p f) := by
  intro tokens s
  have h1 := hp tokens s
  cases e1 : p tokens s with
  | ok v s2 =>
    rw [e1] at h1
    simp only [resMax] at h1
    simp only [mapP, e1, resMax]
    exact h1
  | fail m es =>
    rw [e1] at h1
    simp only [resMax] at h1
    simp only [mapP, e1, resMax]
    exact h1
  | nonterm => simp [mapP, e1, resMax]

/-- Binding `max`-monotone parsers gives a `max`-monotone parser. -/
theorem mono_bindP {p : Prs α} {g : Val α → Prs α} (hp : Mono p)
    (hg : ∀ v, Mono (g v)) : Mono (bindP p g) := by
  intro tokens s
  have h1 := hp tokens s
  cases e1 : p tokens s with
  | ok v s2 =>
    rw [e1] at h1
    simp only [resMax] at h1
    have h2 := hg v tokens s2
    cases e2 : g v tokens s2 with
    | ok v2 s3 =>
      rw [e2] at h2
      simp only [resMax] at h2
      simp only [bindP, e1, e2, resMax]
      omega
    | fail m es =>
      rw [e2] at h2
      simp only [resMax] at h2
      simp only [bindP, e1, e2, resMax]
      omega
    | nonterm => simp [bindP, e1, e2, resMax]
  | fail m es =>
    rw [e1] at h1
    simp only [resMax] at h1
    simp only [bindP, e1, resMax]
    exact h1
  | nonterm => simp [bindP, e1, resMax]

/-- The repetition loop never lowers `max`: each successful iteration keeps
it non-decreasing and the `max` of the final failure is kept in the result. -/
theorem mono_manyFuel {p : Prs α} (hp : Mono p) (tokens : List α) :
    ∀ fuel s res, s.max ≤ resMax (manyFuel p tokens fuel s res) s.max := by
  intro fuel
  induction fuel with
  | zero => intro s res; simp [manyFuel, resMax]
  | succ fuel ih =>
    intro s res
    have h1 := hp tokens s
    cases e1 : p tokens s with
    | ok v s2 =>
      rw [e1] at h1
      simp only [resMax] at h1
      have hstep : manyFuel p tokens (fuel + 1) s res =
          manyFuel p tokens fuel s2 (res ++ [v]) := by
        rw [manyFuel, e1]
      rw [hstep]
      have h2 := ih s2 (res ++ [v])
      cases e2 : manyFuel p tokens fuel s2 (res ++ [v]) with
      | ok v3 s3 =>
        rw [e2] at h2
        simp only [resMax] at h2 ⊢
        omega
      | fail m s3 =>
        rw [e2] at h2
        simp only [resMax] at h2 ⊢
        omega
      | nonterm => simp [resMax]
    | fail m es =>
      rw [e1] at h1
      simp only [resMax] at h1
      have hstep : manyFuel p tokens (fuel + 1) s res =
          .ok (.listV res) ⟨s.pos, es.max⟩ := by
        rw [manyFuel, e1]
      rw [hstep]
      simp only [resMax]
      omega
    | nonterm =>
      have hstep : manyFuel p tokens (fuel + 1) s res = .nonterm := by
        rw [manyFuel, e1]
      rw [hstep]
      simp [resMax]

/-- Repetition `many(p)` with any iteration budget is `max`-monotone. -/
theorem mono_manyP {p : Prs α} (hp : Mono p) (fuel : Nat) :
    Mono (manyP p fuel) := by
  intro tokens s
  exact mono_manyFuel hp tokens fuel s []

/-- Every success of `some(pred)` consumes exactly one token of the
sequence: the cursor advances by one and stays within bounds. -/
theorem someP_progressive (pred : α → Bool) (tokens : List α) :
    Progressive (someP pred) tokens := by
  intro s v s2 h
  by_cases hlt : s.pos < tokens.length
  · rw [someP_eq_pos hlt] at h
    by_cases hp : pred (tokens.get ⟨s.pos, hlt⟩)
    · rw [if_pos hp] at h
      obtain ⟨-, h2⟩ := PRes.ok.inj h
      subst h2
      refine ⟨?_, ?_⟩
      · show s.pos < s.pos + 1
        omega
      · show s.pos + 1 ≤ tokens.length
        omega
    · rw [if_neg hp] at h
      exact absurd h (by simp)
  · rw [someP_eq_eof (by omega)] at h
    exact absurd h (by simp)

/-- The parser `some(pred)` always returns or raises. -/
theorem someP_total (pred : α → Bool) (tokens : List α) :
    Total (someP pred) tokens := by
  intro s
  by_cases hlt : s.pos < tokens.length
  · rw [someP_eq_pos hlt]
    by_cases hp : pred (tokens.get ⟨s.pos, hlt⟩)
    · rw [if_pos hp]
      simp
    · rw [if_neg hp]
      simp
  · rw [someP_eq_eof (by omega)]
    simp

end MyParser

namespace MyParser

/-- C1 [counterexample]: over the token input `[0, 1, 2]` with the three
parsers `some(== 0)`, `some(== 1)`, `some(== 2)`, the left-nested
composition `(p1 + p2) + p3` yields the flat 3-element `_Tuple (0, 1, 2)`
while the right-nested `p1 + (p2 + p3)` yields the nested
`_Tuple (0, _Tuple (1, 2))`: the two results are not identical and the
right-nested one is not flat. -/
theorem c1_add_assoc_cex :
    addP (addP (someP fun t : Nat => t == 0) (someP fun t => t == 1))
        (someP fun t => t == 2) [0, 1, 2] ⟨0, 0⟩ =
      .ok (.tup [.atom 0, .atom 1, .atom 2]) ⟨3, 3⟩ ∧
    addP (someP fun t : Nat => t == 0)
        (addP (someP fun t => t == 1) (someP fun t => t == 2)) [0, 1, 2] ⟨0, 0⟩ =
      .ok (.tup [.atom 0, .tup [.atom 1, .atom 2]]) ⟨3, 3⟩ ∧
    addP (someP fun t : Nat => t == 0)
        (addP (someP fun t => t == 1) (someP fun t => t == 2)) [0, 1, 2] ⟨0, 0⟩ ≠
      addP (addP (someP fun t : Nat => t == 0) (someP fun t => t == 1))
        (someP fun t => t == 2) [0, 1, 2] ⟨0, 0⟩ := by
  refine ⟨rfl, rfl, ?_⟩
  intro h
  simp [addP, someP, magic, isIgnored] at h

/-- C1 [amended]: applied to three tokens each accepted by the respective
predicate, both groupings succeed and consume all three tokens, but with
different values: `(p1+p2)+p3` returns the flat 3-element sequence
`(t1, t2, t3)`, while `p1+(p2+p3)` returns the 2-element sequence
`(t1, (t2, t3))` whose second component is the nested pair of the values of
`p2` and `p3`. -/
theorem c1_add_assoc_amended (α : Type) (f1 f2 f3 : α → Bool) (t1 t2 t3 : α)
    (h1 : f1 t1 = true) (h2 : f2 t2 = true) (h3 : f3 t3 = true) :
    addP (addP (someP f1) (someP f2)) (someP f3) [t1, t2, t3] ⟨0, 0⟩ =
      .ok (.tup [.atom t1, .atom t2, .atom t3]) ⟨3, 3⟩ ∧
    addP (someP f1) (addP (someP f2) (someP f3)) [t1, t2, t3] ⟨0, 0⟩ =
      .ok (.tup [.atom t1, .tup [.atom t2, .atom t3]]) ⟨3, 3⟩ := by
  constructor
  · simp [addP, someP, magic, isIgnored, h1, h2, h3, Nat.max_def]
  · simp [addP, someP, magic, isIgnored, h1, h2, h3, Nat.max_def]

/-- C1 [witness]: the amended statement at the concrete predicates
`== 0`, `== 1`, `== 2` on the input `[0, 1, 2]`. -/
theorem c1_add_assoc_witness :
    addP (addP (someP fun t : Nat => t == 10) (someP fun t => t == 11))
        (someP fun t => t == 12) [10, 11, 12] ⟨0, 0⟩ =
      .ok (.tup [.atom 10, .atom 11, .atom 12]) ⟨3, 3⟩ ∧
    addP (someP fun t : Nat => t == 10)
        (addP (someP fun t => t == 11) (someP fun t => t == 12)) [10, 11, 12] ⟨0, 0⟩ =
      .ok (.tup [.atom 10, .tup [.atom 11, .atom 12]]) ⟨3, 3⟩ :=
  c1_add_assoc_amended Nat _ _ _ 10 11 12 rfl rfl rfl

/-- C5: choice runs the first parser and is left-biased — a success of `P`
is returned as is; on a failure of `P`, `Q` is rerun from the original
cursor `s.pos` but with the `max` reached by `P` carried forward; when both
fail, the overall outcome is the failure of `Q`; and for a `max`-monotone `Q`
the `max` of that failure incorporates the contribution of `P`. -/
theorem c5_or_semantics (α : Type) (p q : Prs α) (tokens : List α) (s : State) :
    (∀ v s2, p tokens s = .ok v s2 → orP p q tokens s = .ok v s2) ∧
    (∀ msg es, p tokens s = .fail msg es →
      orP p q tokens s = q tokens ⟨s.pos, es.max⟩) ∧
    (∀ msg es msg2 es2, p tokens s = .fail msg es →
      q tokens ⟨s.pos, es.max⟩ = .fail msg2 es2 →
      orP p q tokens s = .fail msg2 es2) ∧
    (∀ msg es, Mono q → p tokens s = .fail msg es →
      es.max ≤ resMax (orP p q tokens s) es.max) := by
  refine ⟨?_, ?_, ?_, ?_⟩
  · intro v s2 h
    simp [orP, h]
  · intro msg es h
    simp [orP, h]
  · intro msg es msg2 es2 h hq
    simp [orP, h, hq]
  · intro msg es hq h
    have horq : orP p q tokens s = q tokens ⟨s.pos, es.max⟩ := by simp [orP, h]
    rw [horq]
    simpa using hq tokens ⟨s.pos, es.max⟩

/-- C5 [witness]: with `P = some(fun _ => false)` failing on `[7]` and
`Q = pure(())`, the choice returns the result of `Q` from the original cursor. -/
theorem c5_or_semantics_witness :
    orP (someP fun _ : Nat => false) (pureP .unit) [7] ⟨0, 0⟩ =
      .ok .unit ⟨0, 0⟩ := by
  have h := (c5_or_semantics Nat (someP fun _ : Nat => false) (pureP .unit)
    [7] ⟨0, 0⟩).2.1 "got unexpected token" ⟨0, 0⟩ rfl
  exact h

/-- C6: `max` never decreases through any primitive or combinator: `some`
(on success and failure), `pure`, sequencing, choice (also across the
backtracked branch), map, bind, and `many` each return or raise a state
whose `max` is at least the `max` of the state they received. -/
theorem c6_max_monotone (α : Type) (pred : α → Bool) (x : Val α)
    (p q : Prs α) (f : Val α → Val α) (g : Val α → Prs α) (fuel : Nat)
    (hp : Mono p) (hq : Mono q) (hg : ∀ v, Mono (g v)) :
    Mono (someP pred) ∧ Mono (pureP x) ∧ Mono (addP p q) ∧ Mono (orP p q) ∧
    Mono (mapP p f) ∧ Mono (bindP p g) ∧ Mono (manyP p fuel) :=
  ⟨mono_someP pred, mono_pureP x, mono_addP hp hq, mono_orP hp hq,
   mono_mapP hp f, mono_bindP hp hg, mono_manyP hp fuel⟩

/-- C6 [witness]: the conjunction instantiated over `Nat` tokens with
`pure` sub-parsers, whose monotonicity is discharged concretely. -/
theorem c6_max_monotone_witness :
    Mono (someP fun n : Nat => n == 0) ∧ Mono (pureP (Val.unit : Val Nat)) ∧
    Mono (addP (pureP (Val.unit : Val Nat)) (pureP .unit)) ∧
    Mono (orP (pureP (Val.unit : Val Nat)) (pureP .unit)) ∧
    Mono (mapP (pureP (Val.unit : Val Nat)) (fun v => v)) ∧
    Mono (bindP (pureP (Val.unit : Val Nat)) (fun _ => pureP .unit)) ∧
    Mono (manyP (pureP (Val.unit : Val Nat)) 2) :=
  c6_max_monotone Nat (fun n => n == 0) .unit (pureP .unit) (pureP .unit)
    (fun v => v) (fun _ => pureP .unit) 2 (mono_pureP _) (mono_pureP _)
    (fun _ => mono_pureP _)

/-- C7: `some(f).parse([t])` succeeds with value `t` exactly when `f t`
holds, and fails with the reported unexpected token otherwise; in general
`some(f)` consumes exactly one token and raises `max` to `max(pos, max)`
when the predicate holds and input remains, fails with the message `no tokens left in
the stream` at end of input, and fails with the message `got unexpected token`
leaving the state untouched otherwise. -/
theorem c7_some_semantics (α : Type) (shw : α → String) (f : α → Bool)
    (t : α) (tokens : List α) (s : State) :
    (parseD shw (someP f) [t] = .ok (.atom t) ↔ f t = true) ∧
    (f t = false →
      parseD shw (someP f) [t] =
        .err ("got unexpected token" ++ ": " ++ shw t) ⟨0, 0⟩) ∧
    (∀ h : s.pos < tokens.length, f (tokens.get ⟨s.pos, h⟩) = true →
      someP f tokens s =
        .ok (.atom (tokens.get ⟨s.pos, h⟩))
          ⟨s.pos + 1, Nat.max (s.pos + 1) s.max⟩) ∧
    (tokens.length ≤ s.pos →
      someP f tokens s = .fail "no tokens left in the stream" s) ∧
    (∀ h : s.pos < tokens.length, f (tokens.get ⟨s.pos, h⟩) = false →
      someP f tokens s = .fail "got unexpected token" s) := by
  have hone : (0 : Nat) < [t].length := by simp
  have hget : [t].get ⟨0, hone⟩ = t := rfl
  refine ⟨?_, ?_, ?_, ?_, ?_⟩
  · constructor
    · intro h
      by_cases hf : f t = true
      · exact hf
      · exfalso
        rw [show parseD shw (someP f) [t] =
            match someP f [t] ⟨0, 0⟩ with
            | .ok v _ => ParseOut.ok v
            | .fail msg es =>
              .err (msg ++ ": " ++
                (if h : es.max < [t].length then shw ([t].get ⟨es.max, h⟩)
                 else "<EOF>")) es
            | .nonterm => .nonterm from rfl] at h
        rw [someP_eq_pos hone, hget, if_neg hf] at h
        simp at h
    · intro hf
      rw [show parseD shw (someP f) [t] =
          match someP f [t] ⟨0, 0⟩ with
          | .ok v _ => ParseOut.ok v
          | .fail msg es =>
            .err (msg ++ ": " ++
              (if h : es.max < [t].length then shw ([t].get ⟨es.max, h⟩)
               else "<EOF>")) es
          | .nonterm => .nonterm from rfl]
      rw [someP_eq_pos hone, hget, if_pos hf]
  · intro hf
    rw [show parseD shw (someP f) [t] =
        match someP f [t] ⟨0, 0⟩ with
        | .ok v _ => ParseOut.ok v
        | .fail msg es =>
          .err (msg ++ ": " ++
            (if h : es.max < [t].length then shw ([t].get ⟨es.max, h⟩)
             else "<EOF>")) es
        | .nonterm => .nonterm from rfl]
    rw [someP_eq_pos hone, hget, if_neg (by simpa using hf)]
    simp
  · intro h hf
    rw [someP_eq_pos h, if_pos hf]
  · intro h
    exact someP_eq_eof h
  · intro h hf
    rw [someP_eq_pos h, if_neg (by simpa using hf)]

/-- C7 [witness]: `some(== 5)` on the single token `5` succeeds with value
`5`, and on the single token `6` fails naming the unexpected token. -/
theorem c7_some_semantics_witness :
    parseD (fun n : Nat => toString n) (someP fun n : Nat => n == 5) [5] =
      .ok (.atom 5) ∧
    parseD (fun n : Nat => toString n) (someP fun n : Nat => n == 5) [6] =
      .err ("got unexpected token" ++ ": " ++ toString (6 : Nat)) ⟨0, 0⟩ := by
  constructor
  · exact (c7_some_semantics Nat (fun n => toString n) (fun n => n == 5) 5
      [5] ⟨0, 0⟩).1.mpr rfl
  · exact (c7_some_semantics Nat (fun n => toString n) (fun n => n == 5) 6
      [5] ⟨0, 0⟩).2.1 rfl

end MyParser

namespace MyParser

/-- The repetition loop of `many`, run with more fuel than tokens remain,
ends in the success branch: it returns the collected values, with the
cursor of the last success and the `max` of the failing attempt. -/
theorem manyFuel_never_fails {p : Prs α} {tokens : List α}
    (hprog : Progressive p tokens) (htot : Total p tokens) :
    ∀ fuel s res, tokens.length + 1 - s.pos < fuel →
      ∃ vs sl msg ef,
        manyFuel p tokens fuel s res = .ok (.listV (res ++ vs)) ⟨sl.pos, ef.max⟩ ∧
        Chain p tokens s vs sl ∧ p tokens sl = .fail msg ef := by
  intro fuel
  induction fuel with
  | zero => intro s res h; omega
  | succ fuel ih =>
    intro s res h
    cases hps : p tokens s with
    | ok v s2 =>
      obtain ⟨hlt, hle⟩ := hprog s v s2 hps
      obtain ⟨vs, sl, msg, ef, h1, h2, h3⟩ := ih s2 (res ++ [v]) (by omega)
      refine ⟨v :: vs, sl, msg, ef, ?_, Chain.cons hps h2, h3⟩
      have hstep : manyFuel p tokens (fuel + 1) s res =
          manyFuel p tokens fuel s2 (res ++ [v]) := by
        rw [manyFuel, hps]
      rw [hstep, h1]
      simp
    | fail m es =>
      refine ⟨[], s, m, es, ?_, Chain.nil s, hps⟩
      have hstep : manyFuel p tokens (fuel + 1) s res =
          .ok (.listV res) ⟨s.pos, es.max⟩ := by
        rw [manyFuel, hps]
      rw [hstep]
      simp
    | nonterm => exact absurd hps (htot s)

/-- C8: for every parser `P` that cannot succeed on zero consumed tokens
(every success strictly advances the cursor within the sequence) and always
returns or raises, `many(P)` never fails: from any state it returns the
(possibly empty) list of the values of `P` in parse order, with the cursor of
the state reached by the last success, and with the `max` reached by the
failing final attempt absorbed into the result instead of discarded. -/
theorem c8_many_never_fails (α : Type) (p : Prs α) (tokens : List α)
    (hprog : Progressive p tokens) (htot : Total p tokens) (s : State) :
    ∃ vs sl msg ef,
      manyP p (tokens.length + 2) tokens s = .ok (.listV vs) ⟨sl.pos, ef.max⟩ ∧
      Chain p tokens s vs sl ∧ p tokens sl = .fail msg ef := by
  obtain ⟨vs, sl, msg, ef, h1, h2, h3⟩ :=
    manyFuel_never_fails hprog htot (tokens.length + 2) s [] (by omega)
  refine ⟨vs, sl, msg, ef, ?_, h2, h3⟩
  simpa [manyP] using h1

/-- C8 [witness]: `many(some(== 5))` on the single token `5` returns a list
without failing; `some` is concretely progressive and total. -/
theorem c8_many_never_fails_witness :
    ∃ vs sl msg ef,
      manyP (someP fun n : Nat => n == 5) 3 [5] ⟨0, 0⟩ =
        .ok (.listV vs) ⟨sl.pos, ef.max⟩ ∧
      Chain (someP fun n : Nat => n == 5) [5] ⟨0, 0⟩ vs sl ∧
      someP (fun n : Nat => n == 5) [5] sl = .fail msg ef :=
  c8_many_never_fails Nat (someP fun n : Nat => n == 5) [5]
    (someP_progressive _ _) (someP_total _ _) ⟨0, 0⟩

/-- C9: when the wrapped parser fails, `parse` reports with the token at
index `state.max` of the token sequence when `max` is within bounds, and
with the sentinel `<EOF>` otherwise, appended to the failure message —
the furthest position reached across all branches, not the last tried. -/
theorem c9_parse_reports_max (α : Type) (shw : α → String) (p : Prs α)
    (tokens : List α) (msg : String) (es : State)
    (h : p tokens ⟨0, 0⟩ = .fail msg es) :
    (∀ hlt : es.max < tokens.length,
      parseD shw p tokens =
        .err (msg ++ ": " ++ shw (tokens.get ⟨es.max, hlt⟩)) es) ∧
    (tokens.length ≤ es.max →
      parseD shw p tokens = .err (msg ++ ": " ++ "<EOF>") es) := by
  have hp : parseD shw p tokens =
      .err (msg ++ ": " ++
        (if h2 : es.max < tokens.length then shw (tokens.get ⟨es.max, h2⟩)
         else "<EOF>")) es := by
    unfold parseD
    rw [h]
  constructor
  · intro hlt
    rw [hp, dif_pos hlt]
  · intro hge
    rw [hp, dif_neg (by omega)]

/-- C9 [witness]: a failing `some` on `[4]` reports the token `4` found at
the recorded `max` index `0`. -/
theorem c9_parse_reports_max_witness :
    parseD (fun n : Nat => toString n) (someP fun _ : Nat => false) [4] =
      .err ("got unexpected token" ++ ": " ++ toString (4 : Nat)) ⟨0, 0⟩ := by
  have h := (c9_parse_reports_max Nat (fun n => toString n)
    (someP fun _ : Nat => false) [4] "got unexpected token" ⟨0, 0⟩ rfl).1
    (by simp)
  exact h

end MyParser
